import Mathlib

/-!
A shallow embedding of the 2048 board engine of `my2048.py` and proofs of the
specification claims about it.

The grid is a total function from positions to optional tile values; cell
assignment is `Function.update`.  Python truthiness of a cell (`not b[r][c]`)
is `(g p).getD 0 != 0`.  The two uses of the process-global random source
(`random.choice(empty)` in `_add_tile_if_room` and `random.sample` in
`randtile`) are threaded as explicit parameters: a natural number selecting the
spawn position (taken modulo the number of empty cells, so every empty cell is
selectable and only empty cells are) and a Boolean selecting the value 2 or 4.
-/

namespace My2048

/-- N = 4: the board is N by N (source line 19). -/
abbrev N : Nat := 4

/-- A grid coordinate: a (row, column) pair. -/
abbrev Pos : Type := Fin N × Fin N

/-- The grid of cells: each position holds an optional tile value
(`self._cells`, a list of lists in the source). -/
abbrev Grid : Type := Pos → Option Nat

/-- GOAL = 2048 (source line 20). -/
def GOAL : Nat := 2048

/-- UP = [[(r, c) for r in range(N)] for c in range(N)] (source line 23). -/
def UP : List (List Pos) :=
  (List.finRange N).map (fun c => (List.finRange N).map (fun r => (r, c)))

/-- LEFT = [[(r, c) for c in range(N)] for r in range(N)] (source line 24). -/
def LEFT : List (List Pos) :=
  (List.finRange N).map (fun r => (List.finRange N).map (fun c => (r, c)))

/-- DOWN = [i[::-1] for i in UP] (source line 25). -/
def DOWN : List (List Pos) := UP.map List.reverse

/-- RIGHT = [i[::-1] for i in LEFT] (source line 26). -/
def RIGHT : List (List Pos) := LEFT.map List.reverse

/-- DIRS = (UP, LEFT, DOWN, RIGHT) (source line 27). -/
def DIRS : List (List (List Pos)) := [UP, LEFT, DOWN, RIGHT]

/-- FLATPOS = [(r, c) for r in range(N) for c in range(N)] (source line 29). -/
def FLATPOS : List Pos :=
  (List.finRange N).flatMap (fun r => (List.finRange N).map (fun c => (r, c)))

/-- randtile (source lines 33-34): `random.sample((2, 4), 1, counts=(9, 1))[0]`
returns 2 or 4; the Boolean parameter stands for the random draw (the 9:1
weighting does not affect which values are possible). -/
def randtile (coin : Bool) : Nat := if coin then 4 else 2

/-- Python truthiness of a cell: `b[r][c]` is truthy iff it is neither None
nor 0 (tile values are never 0 in reachable states, but the embedding keeps
the exact truthiness test of the source). -/
def occupied (g : Grid) (p : Pos) : Bool := (g p).getD 0 != 0

/-- Result of the move loop: the final grid, the `moved` accumulator and the
`won` flag (which line 78 of the source may set during a merge). -/
structure MoveRes where
  grid : Grid
  moved : Bool
  won : Bool
  deriving DecidableEq

/-- Source lines 65-66: the slide assignments `b[r][c] = b[nr][nc]` followed
by `b[nr][nc] = None`. -/
def slideTo (b : Grid) (p : Pos) (q : Pos) : Grid :=
  Function.update (Function.update b p (b q)) q none

/-- Source lines 62-67: when the cell at `p` is empty, the first occupied cell
among the remaining positions of the line (if any) is moved into `p`.
Returns the updated grid together with the updated `moved` accumulator. -/
def slideStep (b : Grid) (p : Pos) (rest : List Pos) (moved : Bool) : Grid × Bool :=
  if !occupied b p then
    match rest.find? (fun q => occupied b q) with
    | some q => (slideTo b p q, true)
    | none => (b, moved)
  else (b, moved)

/-- Source lines 74-76: the merge assignments `b[nr][nc] = None` followed by
`b[r][c] *= 2`. -/
def mergeStep (b : Grid) (p : Pos) (q : Pos) : Grid :=
  Function.update (Function.update b q none) p
    ((Function.update b q none p).map (fun v => v * 2))

/-- Source lines 60-78: the inner loop of `Board.move` over one line of
positions.  At each position: slide the next tile here if the cell is empty
(lines 62-67), stop if it is still empty (lines 68-69), otherwise look for the
next occupied cell (lines 71-73) and merge it in when the values match
(lines 74-78), recording a win when a merge reaches GOAL on a real move. -/
def moveLine (just : Bool) : List Pos → Grid → Bool → Bool → MoveRes
  | [], b, moved, won => ⟨b, moved, won⟩
  | p :: rest, b, moved, won =>
    let b1 := (slideStep b p rest moved).1
    let m1 := (slideStep b p rest moved).2
    if !occupied b1 p then ⟨b1, m1, won⟩
    else
      match rest.find? (fun q => occupied b1 q) with
      | none => ⟨b1, m1, won⟩
      | some q =>
        if b1 p = b1 q then
          moveLine just rest (mergeStep b1 p q) true
            (won || (!just && decide (mergeStep b1 p q p = some GOAL)))
        else
          moveLine just rest b1 m1 won

/-- Source line 59: the outer loop of `Board.move` over the lines (rows or
columns) of the chosen direction, threading the grid, the `moved` accumulator
and the `won` flag. -/
def moveLines (just : Bool) : List (List Pos) → Grid → Bool → Bool → MoveRes
  | [], b, moved, won => ⟨b, moved, won⟩
  | line :: later, b, moved, won =>
    let r := moveLine just line b moved won
    moveLines just later r.grid r.moved r.won

/-- The board state: the cell grid and the two status flags. -/
structure Board where
  cells : Grid
  won : Bool
  lost : Bool

/-- Source lines 48-54 (`Board._add_tile_if_room`): collect the empty cells;
if there are none do nothing, otherwise put a random tile on a randomly chosen
empty cell.  `pick` selects the cell (as `random.choice` does), `coin` selects
the tile value (as `randtile` does). -/
def add_tile_if_room (pick : Nat) (coin : Bool) (g : Grid) : Grid :=
  let empty := FLATPOS.filter (fun p => !occupied g p)
  if empty.isEmpty then g
  else
    Function.update g (empty.getD (pick % empty.length) ((0, 0) : Pos))
      (some (randtile coin))

/-- Source lines 85-86 (`Board._cant_move`): no direction yields a changed
dry-run move.  The dry runs read the current cells and the current `won` flag
(they return only their `moved` result). -/
def cant_move (g : Grid) (won : Bool) : Bool :=
  !(DIRS.any (fun d => (moveLines true d g false won).moved))

/-- Source lines 56-83 (`Board.move`): run the slide/merge loop over the
direction (on a disposable copy of the cells when `just` is true, which in the
pure embedding means the input cells are simply kept); on a real move
recompute `lost` (line 80) and spawn a tile when something moved and the game
is not over (lines 81-82).  Returns the new board and the `moved` result. -/
def Board.move (dir : List (List Pos)) (just : Bool) (pick : Nat) (coin : Bool)
    (s : Board) : Board × Bool :=
  let r := moveLines just dir s.cells false s.won
  if just then ({ s with won := r.won }, r.moved)
  else
    let lost := !r.won && cant_move r.grid r.won
    if r.moved && !(r.won || lost) then
      (⟨add_tile_if_room pick coin r.grid, r.won, lost⟩, r.moved)
    else
      (⟨r.grid, r.won, lost⟩, r.moved)

/-- The all-empty grid (source line 42). -/
def emptyGrid : Grid := fun _ => none

/-- Source lines 41-46 (`Board.reset`, also run by `__init__`): clear the
cells, spawn two tiles, clear both flags.  The four parameters are the random
draws of the two spawns. -/
def Board.reset (p1 : Nat) (c1 : Bool) (p2 : Nat) (c2 : Bool) : Board :=
  ⟨add_tile_if_room p2 c2 (add_tile_if_room p1 c1 emptyGrid), false, false⟩

/-- One of the four direction constants of the source. -/
inductive Dir
  | up
  | left
  | down
  | right

/-- The position lists of a direction constant. -/
def dirPosns : Dir → List (List Pos)
  | .up => UP
  | .left => LEFT
  | .down => DOWN
  | .right => RIGHT

/-- One externally visible call on a board: a real `move` in one of the four
directions, or a `reset`.  Each carries the random draws it consumes. -/
inductive Act
  | mv (d : Dir) (pick : Nat) (coin : Bool)
  | rs (p1 : Nat) (c1 : Bool) (p2 : Nat) (c2 : Bool)

/-- Apply one call to a board. -/
def stepAct (s : Board) : Act → Board
  | .mv d pick coin => (Board.move (dirPosns d) false pick coin s).1
  | .rs p1 c1 p2 c2 => Board.reset p1 c1 p2 c2

/-- Apply a finite sequence of calls to a board, in order. -/
def run (acts : List Act) (s : Board) : Board := acts.foldl stepAct s

/-- The number of occupied cells of a grid. -/
def countOcc (g : Grid) : Nat := ∑ p : Pos, if occupied g p then 1 else 0

/-- Two positions are adjacent when they are in the same row or the same
column and their other coordinates differ by one. -/
def adjacent (p q : Pos) : Prop :=
  (p.1 = q.1 ∧ (p.2.val + 1 = q.2.val ∨ q.2.val + 1 = p.2.val)) ∨
  (p.2 = q.2 ∧ (p.1.val + 1 = q.1.val ∨ q.1.val + 1 = p.1.val))

instance (p q : Pos) : Decidable (adjacent p q) :=
  decidable_of_iff
    ((p.1 = q.1 ∧ (p.2.val + 1 = q.2.val ∨ q.2.val + 1 = p.2.val)) ∨
      (p.2 = q.2 ∧ (p.1.val + 1 = q.1.val ∨ q.1.val + 1 = p.1.val)))
    Iff.rfl

/-- No two adjacent cells hold equal values. -/
def noAdjEq (g : Grid) : Prop := ∀ p q : Pos, adjacent p q → g p ≠ g q

instance (g : Grid) : Decidable (noAdjEq g) :=
  decidable_of_iff (∀ p q : Pos, adjacent p q → g p ≠ g q) Iff.rfl

/-- Boolean check that consecutive entries of a list of positions are
adjacent on the board. -/
def chainAdjB : List Pos → Bool
  | [] => true
  | [_] => true
  | p :: q :: rest => decide (adjacent p q) && chainAdjB (q :: rest)

/-- Build a grid from a row-major list of rows (used only to state concrete
instances). -/
def gridOfRows (rows : List (List (Option Nat))) : Grid :=
  fun p => ((rows.getD p.1.val []).getD p.2.val none)

/-- A row holding 2, 2, 2, 2 (all other cells empty). -/
def gridTwos : Grid := gridOfRows [[some 2, some 2, some 2, some 2]]

/-- The expected result of moving `gridTwos` left: 4, 4, empty, empty. -/
def gridTwosMerged : Grid := gridOfRows [[some 4, some 4, none, none]]

/-- A fully occupied grid in which no two adjacent cells hold equal values,
so no direction admits a move. -/
def gridStuck : Grid := gridOfRows
  [[some 2, some 4, some 2, some 4],
   [some 4, some 2, some 4, some 2],
   [some 2, some 4, some 2, some 4],
   [some 4, some 2, some 4, some 2]]

/-- A plausible just-won position: the 2048 tile and two small tiles on the
bottom row, everything else empty. -/
def gridWon : Grid := gridOfRows
  [[none, none, none, none],
   [none, none, none, none],
   [none, none, none, none],
   [some 2048, some 4, some 2, none]]

/-- A board that has just won on `gridWon`. -/
def boardWon : Board := ⟨gridWon, true, false⟩

/-- A row holding two 1024 tiles ready to merge into the goal tile. -/
def gridHalfGoal : Grid := gridOfRows [[some 1024, some 1024, none, none]]

/-- A grid holding a single 2 tile on the bottom row. -/
def gridOne : Grid := gridOfRows
  [[none, none, none, none],
   [none, none, none, none],
   [none, none, none, none],
   [some 2, none, none, none]]

/-! ### Pointwise facts about the grid operations -/

theorem ne_of_occupied {b : Grid} {p q : Pos} (hp : occupied b p = false)
    (hq : occupied b q = true) : p ≠ q := by
  intro h
  rw [h, hq] at hp
  exact Bool.noConfusion hp

theorem slideTo_fst {b : Grid} {p q : Pos} (h : p ≠ q) : slideTo b p q p = b q := by
  unfold slideTo
  rw [Function.update_noteq h, Function.update_same]

theorem slideTo_snd (b : Grid) (p q : Pos) : slideTo b p q q = none := by
  unfold slideTo
  rw [Function.update_same]

theorem slideTo_other {b : Grid} {p q x : Pos} (hxp : x ≠ p) (hxq : x ≠ q) :
    slideTo b p q x = b x := by
  unfold slideTo
  rw [Function.update_noteq hxq, Function.update_noteq hxp]

theorem mergeStep_snd (b : Grid) (p q : Pos) : mergeStep b p q q = none := by
  by_cases h : q = p
  · subst h
    unfold mergeStep
    rw [Function.update_same, Function.update_same]
    rfl
  · unfold mergeStep
    rw [Function.update_noteq h, Function.update_same]

theorem mergeStep_fst {b : Grid} {p q : Pos} (h : p ≠ q) :
    mergeStep b p q p = (b p).map (fun v => v * 2) := by
  unfold mergeStep
  rw [Function.update_same, Function.update_noteq h]

theorem mergeStep_other {b : Grid} {p q x : Pos} (hxp : x ≠ p) (hxq : x ≠ q) :
    mergeStep b p q x = b x := by
  unfold mergeStep
  rw [Function.update_noteq hxp, Function.update_noteq hxq]

/-! ### Unfolding lemmas for the branches of the inner loop -/

theorem slideStep_occ {b : Grid} {p : Pos} (rest : List Pos) (moved : Bool)
    (hp : occupied b p = true) : slideStep b p rest moved = (b, moved) := by
  unfold slideStep
  rw [hp]
  rfl

theorem slideStep_empty_none {b : Grid} {p : Pos} {rest : List Pos} (moved : Bool)
    (hp : occupied b p = false) (hf : rest.find? (fun q => occupied b q) = none) :
    slideStep b p rest moved = (b, moved) := by
  unfold slideStep
  rw [hp, hf]
  rfl

theorem slideStep_empty_some {b : Grid} {p q : Pos} {rest : List Pos} (moved : Bool)
    (hp : occupied b p = false) (hf : rest.find? (fun q => occupied b q) = some q) :
    slideStep b p rest moved = (slideTo b p q, true) := by
  unfold slideStep
  rw [hp, hf]
  rfl

theorem moveLine_nil (just : Bool) (b : Grid) (m w : Bool) :
    moveLine just [] b m w = ⟨b, m, w⟩ := rfl

theorem moveLine_occ_none {b : Grid} {p : Pos} {rest : List Pos} {just m w : Bool}
    (hp : occupied b p = true) (hf : rest.find? (fun q => occupied b q) = none) :
    moveLine just (p :: rest) b m w = ⟨b, m, w⟩ := by
  simp [moveLine, slideStep_occ rest m hp, hp, hf]

theorem moveLine_occ_some_ne {b : Grid} {p q : Pos} {rest : List Pos} {just m w : Bool}
    (hp : occupied b p = true) (hf : rest.find? (fun q => occupied b q) = some q)
    (hne : b p ≠ b q) :
    moveLine just (p :: rest) b m w = moveLine just rest b m w := by
  simp [moveLine, slideStep_occ rest m hp, hp, hf, hne]

theorem moveLine_occ_some_eq {b : Grid} {p q : Pos} {rest : List Pos} {just m w : Bool}
    (hp : occupied b p = true) (hf : rest.find? (fun q => occupied b q) = some q)
    (heq : b p = b q) :
    moveLine just (p :: rest) b m w =
      moveLine just rest (mergeStep b p q) true
        (w || (!just && decide (mergeStep b p q p = some GOAL))) := by
  simp [moveLine, slideStep_occ rest m hp, hp, hf, heq]

theorem moveLine_empty_none {b : Grid} {p : Pos} {rest : List Pos} {just m w : Bool}
    (hp : occupied b p = false) (hf : rest.find? (fun q => occupied b q) = none) :
    moveLine just (p :: rest) b m w = ⟨b, m, w⟩ := by
  simp [moveLine, slideStep_empty_none m hp hf, hp, hf]

theorem occupied_slideTo {b : Grid} {p q : Pos}
    (hp : occupied b p = false) (hq : occupied b q = true) :
    occupied (slideTo b p q) p = true := by
  unfold occupied
  rw [slideTo_fst (ne_of_occupied hp hq)]
  exact hq

theorem moveLine_slide_none {b : Grid} {p q : Pos} {rest : List Pos} {just m w : Bool}
    (hp : occupied b p = false) (hf : rest.find? (fun q => occupied b q) = some q)
    (hf2 : rest.find? (fun x => occupied (slideTo b p q) x) = none) :
    moveLine just (p :: rest) b m w = ⟨slideTo b p q, true, w⟩ := by
  have hq : occupied b q = true := by simpa using List.find?_some hf
  simp [moveLine, slideStep_empty_some m hp hf, occupied_slideTo hp hq, hf2]

theorem moveLine_slide_some_ne {b : Grid} {p q q2 : Pos} {rest : List Pos} {just m w : Bool}
    (hp : occupied b p = false) (hf : rest.find? (fun q => occupied b q) = some q)
    (hf2 : rest.find? (fun x => occupied (slideTo b p q) x) = some q2)
    (hne : slideTo b p q p ≠ slideTo b p q q2) :
    moveLine just (p :: rest) b m w = moveLine just rest (slideTo b p q) true w := by
  have hq : occupied b q = true := by simpa using List.find?_some hf
  simp [moveLine, slideStep_empty_some m hp hf, occupied_slideTo hp hq, hf2, hne]

theorem moveLine_slide_some_eq {b : Grid} {p q q2 : Pos} {rest : List Pos} {just m w : Bool}
    (hp : occupied b p = false) (hf : rest.find? (fun q => occupied b q) = some q)
    (hf2 : rest.find? (fun x => occupied (slideTo b p q) x) = some q2)
    (heq : slideTo b p q p = slideTo b p q q2) :
    moveLine just (p :: rest) b m w =
      moveLine just rest (mergeStep (slideTo b p q) p q2) true
        (w || (!just && decide (mergeStep (slideTo b p q) p q2 p = some GOAL))) := by
  have hq : occupied b q = true := by simpa using List.find?_some hf
  simp [moveLine, slideStep_empty_some m hp hf, occupied_slideTo hp hq, hf2, heq]

/-! ### The `won` flag through the inner loop -/

theorem moveLine_won_of_won {just : Bool} {l : List Pos} :
    ∀ {b : Grid} {m : Bool}, (moveLine just l b m true).won = true := by
  induction l with
  | nil => intro b m; rfl
  | cons p rest ih =>
    intro b m
    by_cases hp : occupied b p = true
    · cases hf : rest.find? (fun q => occupied b q) with
      | none => rw [moveLine_occ_none hp hf]
      | some q =>
        by_cases heq : b p = b q
        · rw [moveLine_occ_some_eq hp hf heq, Bool.true_or]
          exact ih
        · rw [moveLine_occ_some_ne hp hf heq]
          exact ih
    · rw [Bool.not_eq_true] at hp
      cases hf : rest.find? (fun q => occupied b q) with
      | none => rw [moveLine_empty_none hp hf]
      | some q =>
        cases hf2 : rest.find? (fun x => occupied (slideTo b p q) x) with
        | none => rw [moveLine_slide_none hp hf hf2]
        | some q2 =>
          by_cases heq : slideTo b p q p = slideTo b p q q2
          · rw [moveLine_slide_some_eq hp hf hf2 heq, Bool.true_or]
            exact ih
          · rw [moveLine_slide_some_ne hp hf hf2 heq]
            exact ih

theorem moveLine_won_dry {l : List Pos} :
    ∀ {b : Grid} {m w : Bool}, (moveLine true l b m w).won = w := by
  induction l with
  | nil => intro b m w; rfl
  | cons p rest ih =>
    intro b m w
    by_cases hp : occupied b p = true
    · cases hf : rest.find? (fun q => occupied b q) with
      | none => rw [moveLine_occ_none hp hf]
      | some q =>
        by_cases heq : b p = b q
        · rw [moveLine_occ_some_eq hp hf heq, Bool.not_true, Bool.false_and, Bool.or_false]
          exact ih
        · rw [moveLine_occ_some_ne hp hf heq]
          exact ih
    · rw [Bool.not_eq_true] at hp
      cases hf : rest.find? (fun q => occupied b q) with
      | none => rw [moveLine_empty_none hp hf]
      | some q =>
        cases hf2 : rest.find? (fun x => occupied (slideTo b p q) x) with
        | none => rw [moveLine_slide_none hp hf hf2]
        | some q2 =>
          by_cases heq : slideTo b p q p = slideTo b p q q2
          · rw [moveLine_slide_some_eq hp hf hf2 heq, Bool.not_true, Bool.false_and,
              Bool.or_false]
            exact ih
          · rw [moveLine_slide_some_ne hp hf hf2 heq]
            exact ih

theorem moveLine_moved_of_moved {just : Bool} {l : List Pos} :
    ∀ {b : Grid} {w : Bool}, (moveLine just l b true w).moved = true := by
  induction l with
  | nil => intro b w; rfl
  | cons p rest ih =>
    intro b w
    by_cases hp : occupied b p = true
    · cases hf : rest.find? (fun q => occupied b q) with
      | none => rw [moveLine_occ_none hp hf]
      | some q =>
        by_cases heq : b p = b q
        · rw [moveLine_occ_some_eq hp hf heq]
          exact ih
        · rw [moveLine_occ_some_ne hp hf heq]
          exact ih
    · rw [Bool.not_eq_true] at hp
      cases hf : rest.find? (fun q => occupied b q) with
      | none => rw [moveLine_empty_none hp hf]
      | some q =>
        cases hf2 : rest.find? (fun x => occupied (slideTo b p q) x) with
        | none => rw [moveLine_slide_none hp hf hf2]
        | some q2 =>
          by_cases heq : slideTo b p q p = slideTo b p q q2
          · rw [moveLine_slide_some_eq hp hf hf2 heq]
            exact ih
          · rw [moveLine_slide_some_ne hp hf hf2 heq]
            exact ih

theorem moveLine_of_not_moved {just : Bool} {l : List Pos} :
    ∀ {b : Grid} {w : Bool}, (moveLine just l b false w).moved = false →
      moveLine just l b false w = ⟨b, false, w⟩ := by
  induction l with
  | nil => intro b w _; rfl
  | cons p rest ih =>
    intro b w hmv
    by_cases hp : occupied b p = true
    · cases hf : rest.find? (fun q => occupied b q) with
      | none => rw [moveLine_occ_none hp hf]
      | some q =>
        by_cases heq : b p = b q
        · rw [moveLine_occ_some_eq hp hf heq] at hmv
          rw [moveLine_moved_of_moved] at hmv
          exact Bool.noConfusion hmv
        · rw [moveLine_occ_some_ne hp hf heq] at hmv ⊢
          exact ih hmv
    · rw [Bool.not_eq_true] at hp
      cases hf : rest.find? (fun q => occupied b q) with
      | none => rw [moveLine_empty_none hp hf]
      | some q =>
        cases hf2 : rest.find? (fun x => occupied (slideTo b p q) x) with
        | none =>
          rw [moveLine_slide_none hp hf hf2] at hmv
          exact Bool.noConfusion hmv
        | some q2 =>
          by_cases heq : slideTo b p q p = slideTo b p q q2
          · rw [moveLine_slide_some_eq hp hf hf2 heq] at hmv
            rw [moveLine_moved_of_moved] at hmv
            exact Bool.noConfusion hmv
          · rw [moveLine_slide_some_ne hp hf hf2 heq] at hmv
            rw [moveLine_moved_of_moved] at hmv
            exact Bool.noConfusion hmv

/-! ### Counting occupied cells -/

theorem ind_of_true {c : Bool} (h : c = true) : (if c then (1 : Nat) else 0) = 1 := by
  rw [h]
  decide

theorem ind_of_false {c : Bool} (h : c = false) : (if c then (1 : Nat) else 0) = 0 := by
  rw [h]
  decide

theorem ind_none : (if (none : Option Nat).getD 0 != 0 then (1 : Nat) else 0) = 0 := rfl

theorem countOcc_update (g : Grid) (p : Pos) (v : Option Nat) :
    countOcc (Function.update g p v) + (if occupied g p then 1 else 0)
      = countOcc g + (if v.getD 0 != 0 then 1 else 0) := by
  unfold countOcc
  have h1 : (fun x => if occupied (Function.update g p v) x then (1 : Nat) else 0)
      = Function.update (fun x => if occupied g x then (1 : Nat) else 0) p
          (if v.getD 0 != 0 then 1 else 0) := by
    funext x
    by_cases h : x = p
    · subst h
      simp [occupied, Function.update_same]
    · simp [occupied, Function.update_noteq h, h]
  calc (∑ x : Pos, if occupied (Function.update g p v) x then (1 : Nat) else 0)
        + (if occupied g p then 1 else 0)
      = (∑ x : Pos, Function.update (fun x => if occupied g x then (1 : Nat) else 0) p
          (if v.getD 0 != 0 then 1 else 0) x) + (if occupied g p then 1 else 0) := by
        rw [h1]
    _ = ((if v.getD 0 != 0 then (1 : Nat) else 0)
          + ∑ x ∈ Finset.univ \ {p}, (if occupied g x then (1 : Nat) else 0))
          + (if occupied g p then 1 else 0) := by
        rw [Finset.sum_update_of_mem (Finset.mem_univ p)]
    _ = (∑ x : Pos, if occupied g x then (1 : Nat) else 0)
          + (if v.getD 0 != 0 then 1 else 0) := by
        rw [Finset.sum_eq_sum_diff_singleton_add (Finset.mem_univ p)
          (fun x => if occupied g x then (1 : Nat) else 0)]
        omega

theorem countOcc_le_card (g : Grid) : countOcc g ≤ 16 := by
  unfold countOcc
  calc (∑ x : Pos, if occupied g x then (1 : Nat) else 0)
      ≤ ∑ _x : Pos, (1 : Nat) := Finset.sum_le_sum (fun i _ => by split <;> omega)
    _ = 16 := by
        simp only [Finset.sum_const, Finset.card_univ, smul_eq_mul, mul_one]
        rfl

theorem countOcc_full {g : Grid} (h : ∀ p, occupied g p = true) : countOcc g = 16 := by
  unfold countOcc
  calc (∑ x : Pos, if occupied g x then (1 : Nat) else 0)
      = ∑ _x : Pos, (1 : Nat) := Finset.sum_congr rfl (fun x _ => by simp [h x])
    _ = 16 := by
        simp only [Finset.sum_const, Finset.card_univ, smul_eq_mul, mul_one]
        rfl

theorem countOcc_le_15 {g : Grid} {p : Pos} (h : occupied g p = false) :
    countOcc g ≤ 15 := by
  unfold countOcc
  rw [Finset.sum_eq_sum_diff_singleton_add (Finset.mem_univ p)]
  rw [ind_of_false h]
  have h2 : (∑ x ∈ Finset.univ \ {p}, if occupied g x then (1 : Nat) else 0)
      ≤ ∑ _x ∈ Finset.univ \ ({p} : Finset Pos), (1 : Nat) :=
    Finset.sum_le_sum (fun i _ => by split <;> omega)
  have h3 : (∑ _x ∈ Finset.univ \ ({p} : Finset Pos), (1 : Nat)) = 15 := by
    rw [Finset.sum_const, Finset.card_univ_diff]
    simp only [Finset.card_singleton, Finset.card_univ, smul_eq_mul, mul_one]
    rfl
  omega

theorem exists_empty_of_countOcc {g : Grid} (h : countOcc g ≤ 15) :
    ∃ p, occupied g p = false := by
  by_contra hc
  push_neg at hc
  have hall : ∀ p, occupied g p = true := by
    intro p
    cases hb : occupied g p with
    | false => exact absurd hb (hc p)
    | true => rfl
  have := countOcc_full hall
  omega

theorem countOcc_slideTo {b : Grid} {p q : Pos} (hp : occupied b p = false)
    (hq : occupied b q = true) : countOcc (slideTo b p q) = countOcc b := by
  have hpq : p ≠ q := ne_of_occupied hp hq
  have h1 := countOcc_update b p (b q)
  have h2 := countOcc_update (Function.update b p (b q)) q none
  have e1 : (if occupied b p then (1 : Nat) else 0) = 0 := ind_of_false hp
  have e2 : (if (b q).getD 0 != 0 then (1 : Nat) else 0) = 1 := ind_of_true hq
  have hv : occupied (Function.update b p (b q)) q = true := by
    unfold occupied
    rw [Function.update_noteq (Ne.symm hpq)]
    exact hq
  have e3 : (if occupied (Function.update b p (b q)) q then (1 : Nat) else 0) = 1 :=
    ind_of_true hv
  rw [e1, e2] at h1
  rw [e3, ind_none] at h2
  unfold slideTo
  omega

theorem countOcc_mergeStep_le (b : Grid) (p q : Pos) :
    countOcc (mergeStep b p q) ≤ countOcc b := by
  have h1 := countOcc_update b q none
  have h2 := countOcc_update (Function.update b q none) p
    ((Function.update b q none p).map (fun v => v * 2))
  have emap : (if ((Function.update b q none p).map (fun v => v * 2)).getD 0 != 0
        then (1 : Nat) else 0)
      = (if occupied (Function.update b q none) p then (1 : Nat) else 0) := by
    unfold occupied
    cases hu : Function.update b q none p with
    | none => rfl
    | some v =>
      by_cases hv : v = 0
      · subst hv; rfl
      · have g1 : (some (v * 2)).getD 0 = v * 2 := rfl
        have g2 : (some v).getD 0 = v := rfl
        have l1 : ((some (v * 2)).getD 0 != 0) = true := by
          rw [g1]
          exact bne_iff_ne.mpr (by omega)
        have l2 : ((some v).getD 0 != 0) = true := by
          rw [g2]
          exact bne_iff_ne.mpr hv
        simp only [Option.map_some', l1, l2]
  rw [emap] at h2
  rw [ind_none] at h1
  unfold mergeStep
  have e5 : (if occupied b q then (1 : Nat) else 0) <= 1 := by split <;> omega
  omega

theorem occupied_mergeStep_snd (b : Grid) (p q : Pos) :
    occupied (mergeStep b p q) q = false := by
  unfold occupied
  rw [mergeStep_snd]
  rfl

theorem occupied_slideTo_snd (b : Grid) (p q : Pos) :
    occupied (slideTo b p q) q = false := by
  unfold occupied
  rw [slideTo_snd]
  rfl

theorem moveLine_countOcc_le {just : Bool} {l : List Pos} :
    ∀ {b : Grid} {m w : Bool}, countOcc (moveLine just l b m w).grid ≤ countOcc b := by
  induction l with
  | nil => intro b m w; exact Nat.le_refl _
  | cons p rest ih =>
    intro b m w
    by_cases hp : occupied b p = true
    · cases hf : rest.find? (fun q => occupied b q) with
      | none => rw [moveLine_occ_none hp hf]
      | some q =>
        by_cases heq : b p = b q
        · rw [moveLine_occ_some_eq hp hf heq]
          exact le_trans ih (countOcc_mergeStep_le b p q)
        · rw [moveLine_occ_some_ne hp hf heq]
          exact ih
    · rw [Bool.not_eq_true] at hp
      cases hf : rest.find? (fun q => occupied b q) with
      | none => rw [moveLine_empty_none hp hf]
      | some q =>
        have hq : occupied b q = true := by simpa using List.find?_some hf
        have hcnt : countOcc (slideTo b p q) = countOcc b := countOcc_slideTo hp hq
        cases hf2 : rest.find? (fun x => occupied (slideTo b p q) x) with
        | none =>
          rw [moveLine_slide_none hp hf hf2]
          exact Nat.le_of_eq hcnt
        | some q2 =>
          by_cases heq : slideTo b p q p = slideTo b p q q2
          · rw [moveLine_slide_some_eq hp hf hf2 heq]
            calc countOcc (moveLine just rest (mergeStep (slideTo b p q) p q2) true _).grid
                ≤ countOcc (mergeStep (slideTo b p q) p q2) := ih
              _ ≤ countOcc (slideTo b p q) := countOcc_mergeStep_le _ _ _
              _ = countOcc b := hcnt
          · rw [moveLine_slide_some_ne hp hf hf2 heq]
            calc countOcc (moveLine just rest (slideTo b p q) true w).grid
                ≤ countOcc (slideTo b p q) := ih
              _ = countOcc b := hcnt

theorem moveLine_moved_countOcc {just : Bool} {l : List Pos} :
    ∀ {b : Grid} {m w : Bool}, (moveLine just l b m w).moved = true →
      m = true ∨ countOcc (moveLine just l b m w).grid ≤ 15 := by
  induction l with
  | nil => intro b m w hm; exact Or.inl hm
  | cons p rest ih =>
    intro b m w hm
    by_cases hp : occupied b p = true
    · cases hf : rest.find? (fun q => occupied b q) with
      | none =>
        rw [moveLine_occ_none hp hf] at hm
        exact Or.inl hm
      | some q =>
        by_cases heq : b p = b q
        · rw [moveLine_occ_some_eq hp hf heq]
          refine Or.inr ?_
          calc countOcc (moveLine just rest (mergeStep b p q) true _).grid
              ≤ countOcc (mergeStep b p q) := moveLine_countOcc_le
            _ ≤ 15 := countOcc_le_15 (occupied_mergeStep_snd b p q)
        · rw [moveLine_occ_some_ne hp hf heq] at hm ⊢
          exact ih hm
    · rw [Bool.not_eq_true] at hp
      cases hf : rest.find? (fun q => occupied b q) with
      | none =>
        rw [moveLine_empty_none hp hf] at hm
        exact Or.inl hm
      | some q =>
        have hle : countOcc (slideTo b p q) ≤ 15 :=
          countOcc_le_15 (occupied_slideTo_snd b p q)
        cases hf2 : rest.find? (fun x => occupied (slideTo b p q) x) with
        | none =>
          rw [moveLine_slide_none hp hf hf2]
          exact Or.inr hle
        | some q2 =>
          by_cases heq : slideTo b p q p = slideTo b p q q2
          · rw [moveLine_slide_some_eq hp hf hf2 heq]
            refine Or.inr ?_
            calc countOcc (moveLine just rest (mergeStep (slideTo b p q) p q2) true _).grid
                ≤ countOcc (mergeStep (slideTo b p q) p q2) := moveLine_countOcc_le
              _ ≤ countOcc (slideTo b p q) := countOcc_mergeStep_le _ _ _
              _ ≤ 15 := hle
          · rw [moveLine_slide_some_ne hp hf hf2 heq]
            refine Or.inr ?_
            exact le_trans moveLine_countOcc_le hle

/-! ### Tile values stay powers of two -/

/-- Every tile present on the grid is a power of two with exponent at least
one. -/
def PInv (g : Grid) : Prop := ∀ p v, g p = some v → ∃ k, v = 2 ^ (k + 1)

theorem PInv_update {g : Grid} {p : Pos} {o : Option Nat} (hg : PInv g)
    (ho : ∀ v, o = some v → ∃ k, v = 2 ^ (k + 1)) : PInv (Function.update g p o) := by
  intro x v hx
  by_cases h : x = p
  · subst h
    rw [Function.update_same] at hx
    exact ho v hx
  · rw [Function.update_noteq h] at hx
    exact hg x v hx

theorem PInv_slideTo {b : Grid} (p q : Pos) (hb : PInv b) : PInv (slideTo b p q) := by
  unfold slideTo
  exact PInv_update (PInv_update hb (fun v hv => hb q v hv))
    (fun v hv => Option.noConfusion hv)

theorem PInv_mergeStep {b : Grid} (p q : Pos) (hb : PInv b) : PInv (mergeStep b p q) := by
  unfold mergeStep
  have hb2 : PInv (Function.update b q none) :=
    PInv_update hb (fun v hv => Option.noConfusion hv)
  refine PInv_update hb2 ?_
  intro v hv
  cases hu : Function.update b q none p with
  | none =>
    rw [hu] at hv
    exact Option.noConfusion hv
  | some w =>
    rw [hu] at hv
    have hw : w * 2 = v := by simpa using hv
    obtain ⟨k, hk⟩ := hb2 p w hu
    refine ⟨k + 1, ?_⟩
    rw [← hw, hk]
    exact (pow_succ 2 (k + 1)).symm

theorem moveLine_PInv {just : Bool} {l : List Pos} :
    ∀ {b : Grid} {m w : Bool}, PInv b → PInv (moveLine just l b m w).grid := by
  induction l with
  | nil => intro b m w hb; exact hb
  | cons p rest ih =>
    intro b m w hb
    by_cases hp : occupied b p = true
    · cases hf : rest.find? (fun q => occupied b q) with
      | none => rw [moveLine_occ_none hp hf]; exact hb
      | some q =>
        by_cases heq : b p = b q
        · rw [moveLine_occ_some_eq hp hf heq]
          exact ih (PInv_mergeStep p q hb)
        · rw [moveLine_occ_some_ne hp hf heq]
          exact ih hb
    · rw [Bool.not_eq_true] at hp
      cases hf : rest.find? (fun q => occupied b q) with
      | none => rw [moveLine_empty_none hp hf]; exact hb
      | some q =>
        cases hf2 : rest.find? (fun x => occupied (slideTo b p q) x) with
        | none =>
          rw [moveLine_slide_none hp hf hf2]
          exact PInv_slideTo p q hb
        | some q2 =>
          by_cases heq : slideTo b p q p = slideTo b p q q2
          · rw [moveLine_slide_some_eq hp hf hf2 heq]
            exact ih (PInv_mergeStep p q2 (PInv_slideTo p q hb))
          · rw [moveLine_slide_some_ne hp hf hf2 heq]
            exact ih (PInv_slideTo p q hb)

/-! ### A full board with no equal neighbours is completely stuck -/

theorem moveLine_stuck {just : Bool} {g : Grid} :
    ∀ (l : List Pos) (m w : Bool), (∀ q ∈ l, occupied g q = true) →
      l.Chain' (fun a b => g a ≠ g b) → moveLine just l g m w = ⟨g, m, w⟩ := by
  intro l
  induction l with
  | nil => intro m w _ _; rfl
  | cons p rest ih =>
    intro m w hocc hch
    have hp : occupied g p = true := hocc p (List.mem_cons_self p rest)
    cases rest with
    | nil => exact moveLine_occ_none hp rfl
    | cons q rest2 =>
      have hq : occupied g q = true := hocc q (by simp)
      have hf : (q :: rest2).find? (fun x => occupied g x) = some q :=
        List.find?_cons_of_pos rest2 hq
      have hne : g p ≠ g q := (List.chain'_cons.mp hch).1
      rw [moveLine_occ_some_ne hp hf hne]
      exact ih m w (fun x hx => hocc x (List.mem_cons_of_mem p hx))
        (List.chain'_cons.mp hch).2

theorem moveLines_stuck {just : Bool} {g : Grid}
    (hocc : ∀ p, occupied g p = true) :
    ∀ (dir : List (List Pos)) (m w : Bool),
      (∀ l ∈ dir, l.Chain' (fun a b => g a ≠ g b)) →
      moveLines just dir g m w = ⟨g, m, w⟩ := by
  intro dir
  induction dir with
  | nil => intro m w _; rfl
  | cons line later ih =>
    intro m w hch
    simp only [moveLines]
    rw [moveLine_stuck line m w (fun q _ => hocc q) (hch line (List.mem_cons_self line later))]
    exact ih m w (fun l hl => hch l (List.mem_cons_of_mem line hl))

/-! ### Lifting the inner-loop lemmas to the loop over all lines -/

theorem moveLines_won_of_won {just : Bool} {dir : List (List Pos)} :
    ∀ {b : Grid} {m : Bool}, (moveLines just dir b m true).won = true := by
  induction dir with
  | nil => intro b m; rfl
  | cons line later ih =>
    intro b m
    simp only [moveLines]
    rw [moveLine_won_of_won]
    exact ih

theorem moveLines_won_dry {dir : List (List Pos)} :
    ∀ {b : Grid} {m w : Bool}, (moveLines true dir b m w).won = w := by
  induction dir with
  | nil => intro b m w; rfl
  | cons line later ih =>
    intro b m w
    simp only [moveLines]
    rw [moveLine_won_dry]
    exact ih

theorem moveLines_moved_of_moved {just : Bool} {dir : List (List Pos)} :
    ∀ {b : Grid} {w : Bool}, (moveLines just dir b true w).moved = true := by
  induction dir with
  | nil => intro b w; rfl
  | cons line later ih =>
    intro b w
    simp only [moveLines]
    rw [moveLine_moved_of_moved]
    exact ih

theorem moveLines_of_not_moved {just : Bool} {dir : List (List Pos)} :
    ∀ {b : Grid} {w : Bool}, (moveLines just dir b false w).moved = false →
      moveLines just dir b false w = ⟨b, false, w⟩ := by
  induction dir with
  | nil => intro b w _; rfl
  | cons line later ih =>
    intro b w hm
    simp only [moveLines] at hm ⊢
    cases hr : (moveLine just line b false w).moved with
    | true =>
      rw [hr] at hm
      rw [moveLines_moved_of_moved] at hm
      exact Bool.noConfusion hm
    | false =>
      have hr2 := moveLine_of_not_moved hr
      rw [hr2] at hm ⊢
      exact ih hm

theorem moveLines_countOcc_le {just : Bool} {dir : List (List Pos)} :
    ∀ {b : Grid} {m w : Bool}, countOcc (moveLines just dir b m w).grid ≤ countOcc b := by
  induction dir with
  | nil => intro b m w; exact Nat.le_refl _
  | cons line later ih =>
    intro b m w
    simp only [moveLines]
    exact le_trans ih moveLine_countOcc_le

theorem moveLines_moved_countOcc {just : Bool} {dir : List (List Pos)} :
    ∀ {b : Grid} {m w : Bool}, (moveLines just dir b m w).moved = true →
      m = true ∨ countOcc (moveLines just dir b m w).grid ≤ 15 := by
  induction dir with
  | nil => intro b m w hm; exact Or.inl hm
  | cons line later ih =>
    intro b m w hm
    simp only [moveLines] at hm ⊢
    cases ih hm with
    | inr h => exact Or.inr h
    | inl hr =>
      cases moveLine_moved_countOcc hr with
      | inl h => exact Or.inl h
      | inr h =>
        refine Or.inr ?_
        exact le_trans moveLines_countOcc_le h

theorem moveLines_PInv {just : Bool} {dir : List (List Pos)} :
    ∀ {b : Grid} {m w : Bool}, PInv b → PInv (moveLines just dir b m w).grid := by
  induction dir with
  | nil => intro b m w hb; exact hb
  | cons line later ih =>
    intro b m w hb
    simp only [moveLines]
    exact ih (moveLine_PInv hb)

/-! ### The spawn step -/

theorem mem_FLATPOS : ∀ p : Pos, p ∈ FLATPOS := by decide

theorem bool_not_true {b : Bool} (h : (!b) = true) : b = false := by
  cases b
  · rfl
  · exact Bool.noConfusion h

theorem add_tile_countOcc_le (pick : Nat) (coin : Bool) (g : Grid) :
    countOcc (add_tile_if_room pick coin g) ≤ countOcc g + 1 := by
  simp only [add_tile_if_room]
  split
  · omega
  · have h := countOcc_update g
      ((FLATPOS.filter (fun p => !occupied g p)).getD
        (pick % (FLATPOS.filter (fun p => !occupied g p)).length) ((0, 0) : Pos))
      (some (randtile coin))
    have e1 : (if (some (randtile coin)).getD 0 != 0 then (1 : Nat) else 0) ≤ 1 := by
      split <;> omega
    omega

theorem add_tile_adds_one {g : Grid} {p0 : Pos} (hp0 : occupied g p0 = false)
    (pick : Nat) (coin : Bool) :
    countOcc (add_tile_if_room pick coin g) = countOcc g + 1 := by
  have hmem : p0 ∈ FLATPOS.filter (fun p => !occupied g p) := by
    rw [List.mem_filter]
    refine ⟨mem_FLATPOS p0, ?_⟩
    rw [hp0]
    rfl
  have hne : FLATPOS.filter (fun p => !occupied g p) ≠ [] := List.ne_nil_of_mem hmem
  have hlen : 0 < (FLATPOS.filter (fun p => !occupied g p)).length :=
    List.length_pos.mpr hne
  have hmod : pick % (FLATPOS.filter (fun p => !occupied g p)).length
      < (FLATPOS.filter (fun p => !occupied g p)).length := Nat.mod_lt _ hlen
  have hgetmem : (FLATPOS.filter (fun p => !occupied g p)).getD
      (pick % (FLATPOS.filter (fun p => !occupied g p)).length) ((0, 0) : Pos)
      ∈ FLATPOS.filter (fun p => !occupied g p) := by
    rw [List.getD_eq_getElem _ _ hmod]
    exact List.getElem_mem _
  have hchosen : occupied g ((FLATPOS.filter (fun p => !occupied g p)).getD
      (pick % (FLATPOS.filter (fun p => !occupied g p)).length) ((0, 0) : Pos)) = false := by
    exact bool_not_true (List.mem_filter.mp hgetmem).2
  simp only [add_tile_if_room]
  rw [if_neg (fun hcontra => hne (List.isEmpty_iff.mp hcontra))]
  have h := countOcc_update g
    ((FLATPOS.filter (fun p => !occupied g p)).getD
      (pick % (FLATPOS.filter (fun p => !occupied g p)).length) ((0, 0) : Pos))
    (some (randtile coin))
  rw [ind_of_false hchosen] at h
  have hrt : ((some (randtile coin)).getD 0 != 0) = true := by cases coin <;> rfl
  rw [ind_of_true hrt] at h
  omega

theorem add_tile_PInv {g : Grid} (hg : PInv g) (pick : Nat) (coin : Bool) :
    PInv (add_tile_if_room pick coin g) := by
  simp only [add_tile_if_room]
  split
  · exact hg
  · refine PInv_update hg ?_
    intro v hv
    have hv2 : randtile coin = v := by simpa using hv
    cases coin with
    | false => exact ⟨0, by rw [← hv2]; rfl⟩
    | true => exact ⟨1, by rw [← hv2]; rfl⟩

/-! ### Adjacency along the lines of every direction -/

theorem chainAdjB_chain : ∀ l : List Pos, chainAdjB l = true → l.Chain' adjacent := by
  intro l
  induction l with
  | nil => intro _; exact List.chain'_nil
  | cons p rest ih =>
    cases rest with
    | nil => intro _; simp
    | cons q rest2 =>
      intro hb
      rw [chainAdjB] at hb
      rw [List.chain'_cons]
      cases hpq : decide (adjacent p q) with
      | false =>
        rw [hpq, Bool.false_and] at hb
        exact Bool.noConfusion hb
      | true =>
        rw [hpq, Bool.true_and] at hb
        exact ⟨of_decide_eq_true hpq, ih hb⟩

theorem chain_of_noAdj {g : Grid} (h : noAdjEq g) (d : Dir) :
    ∀ l ∈ dirPosns d, l.Chain' (fun a b => g a ≠ g b) := by
  have hadj : ∀ l ∈ dirPosns d, chainAdjB l = true := by
    cases d <;> decide
  intro l hl
  exact (chainAdjB_chain l (hadj l hl)).imp (fun a b hab => h a b hab)

/-! ### Board-level lemmas -/

theorem move_dry_state (dir : List (List Pos)) (pick : Nat) (coin : Bool) (s : Board) :
    (Board.move dir true pick coin s).1 = s := by
  show { s with won := (moveLines true dir s.cells false s.won).won } = s
  rw [moveLines_won_dry]

theorem move_dry_moved (dir : List (List Pos)) (pick : Nat) (coin : Bool) (s : Board) :
    (Board.move dir true pick coin s).2 = (moveLines true dir s.cells false s.won).moved :=
  rfl

theorem move_real_eq (dir : List (List Pos)) (pick : Nat) (coin : Bool) (s : Board) :
    Board.move dir false pick coin s
      = (if (moveLines false dir s.cells false s.won).moved
            && !((moveLines false dir s.cells false s.won).won
              || (!(moveLines false dir s.cells false s.won).won
                  && cant_move (moveLines false dir s.cells false s.won).grid
                    (moveLines false dir s.cells false s.won).won)) then
          (⟨add_tile_if_room pick coin (moveLines false dir s.cells false s.won).grid,
            (moveLines false dir s.cells false s.won).won,
            !(moveLines false dir s.cells false s.won).won
              && cant_move (moveLines false dir s.cells false s.won).grid
                (moveLines false dir s.cells false s.won).won⟩,
          (moveLines false dir s.cells false s.won).moved)
        else
          (⟨(moveLines false dir s.cells false s.won).grid,
            (moveLines false dir s.cells false s.won).won,
            !(moveLines false dir s.cells false s.won).won
              && cant_move (moveLines false dir s.cells false s.won).grid
                (moveLines false dir s.cells false s.won).won⟩,
          (moveLines false dir s.cells false s.won).moved)) := rfl

theorem move_real_moved (dir : List (List Pos)) (pick : Nat) (coin : Bool) (s : Board) :
    (Board.move dir false pick coin s).2
      = (moveLines false dir s.cells false s.won).moved := by
  rw [move_real_eq]
  split <;> rfl

theorem move_real_after_won {dir : List (List Pos)} {pick : Nat} {coin : Bool} {s : Board}
    (h : s.won = true) :
    (Board.move dir false pick coin s).1
      = ⟨(moveLines false dir s.cells false s.won).grid, true, false⟩ := by
  have hw : (moveLines false dir s.cells false s.won).won = true := by
    rw [h]
    exact moveLines_won_of_won
  rw [move_real_eq, hw]
  simp

theorem move_real_not_moved {dir : List (List Pos)} {pick : Nat} {coin : Bool} {s : Board}
    (h : (Board.move dir false pick coin s).2 = false) :
    (Board.move dir false pick coin s).1.cells = s.cells := by
  rw [move_real_moved] at h
  have hr := moveLines_of_not_moved h
  rw [move_real_eq, h, hr]
  simp

theorem move_real_flags (dir : List (List Pos)) (pick : Nat) (coin : Bool) (s : Board) :
    ((Board.move dir false pick coin s).1.won
      && (Board.move dir false pick coin s).1.lost) = false := by
  rw [move_real_eq]
  split <;>
    cases hrw : (moveLines false dir s.cells false s.won).won <;> simp [hrw]

theorem move_real_countOcc_le (dir : List (List Pos)) (pick : Nat) (coin : Bool) (s : Board) :
    countOcc (Board.move dir false pick coin s).1.cells ≤ countOcc s.cells + 1 := by
  rw [move_real_eq]
  split
  · show countOcc (add_tile_if_room pick coin (moveLines false dir s.cells false s.won).grid)
      ≤ countOcc s.cells + 1
    calc countOcc (add_tile_if_room pick coin (moveLines false dir s.cells false s.won).grid)
        ≤ countOcc (moveLines false dir s.cells false s.won).grid + 1 :=
          add_tile_countOcc_le pick coin _
      _ ≤ countOcc s.cells + 1 := Nat.add_le_add_right moveLines_countOcc_le 1
  · show countOcc (moveLines false dir s.cells false s.won).grid ≤ countOcc s.cells + 1
    calc countOcc (moveLines false dir s.cells false s.won).grid
        ≤ countOcc s.cells := moveLines_countOcc_le
      _ ≤ countOcc s.cells + 1 := Nat.le_succ _

theorem move_real_spawn {dir : List (List Pos)} {pick : Nat} {coin : Bool} {s : Board}
    (hm : (Board.move dir false pick coin s).2 = true)
    (hgo : ((Board.move dir false pick coin s).1.won
      || (Board.move dir false pick coin s).1.lost) = false) :
    countOcc (Board.move dir false pick coin s).1.cells
      = countOcc (moveLines false dir s.cells false s.won).grid + 1 := by
  rw [move_real_moved] at hm
  have hc : ((moveLines false dir s.cells false s.won).won
      || (!(moveLines false dir s.cells false s.won).won
          && cant_move (moveLines false dir s.cells false s.won).grid
            (moveLines false dir s.cells false s.won).won)) = false := by
    rw [move_real_eq] at hgo
    split at hgo
    · exact hgo
    · exact hgo
  have hcond : ((moveLines false dir s.cells false s.won).moved
      && !((moveLines false dir s.cells false s.won).won
        || (!(moveLines false dir s.cells false s.won).won
            && cant_move (moveLines false dir s.cells false s.won).grid
              (moveLines false dir s.cells false s.won).won))) = true := by
    rw [hm, hc]
    rfl
  have h15 : countOcc (moveLines false dir s.cells false s.won).grid ≤ 15 := by
    cases moveLines_moved_countOcc hm with
    | inl h => exact Bool.noConfusion h
    | inr h => exact h
  obtain ⟨p0, hp0⟩ := exists_empty_of_countOcc h15
  rw [move_real_eq, if_pos hcond]
  exact add_tile_adds_one hp0 pick coin

/-! ### Runs of calls -/

theorem reset_PInv (p1 : Nat) (c1 : Bool) (p2 : Nat) (c2 : Bool) :
    PInv (Board.reset p1 c1 p2 c2).cells := by
  have h0 : PInv emptyGrid := fun p v hv => Option.noConfusion hv
  exact add_tile_PInv (add_tile_PInv h0 p1 c1) p2 c2

theorem move_PInv {dir : List (List Pos)} {pick : Nat} {coin : Bool} {s : Board}
    (h : PInv s.cells) : PInv (Board.move dir false pick coin s).1.cells := by
  rw [move_real_eq]
  split
  · exact add_tile_PInv (moveLines_PInv h) pick coin
  · exact moveLines_PInv h

theorem stepAct_PInv {s : Board} (a : Act) (h : PInv s.cells) :
    PInv (stepAct s a).cells := by
  cases a with
  | mv d pick coin => exact move_PInv h
  | rs p1 c1 p2 c2 => exact reset_PInv p1 c1 p2 c2

theorem run_PInv {acts : List Act} :
    ∀ {s : Board}, PInv s.cells → PInv (run acts s).cells := by
  induction acts with
  | nil => intro s h; exact h
  | cons a rest ih =>
    intro s h
    exact ih (stepAct_PInv a h)

theorem stepAct_flags (s : Board) (a : Act) :
    ((stepAct s a).won && (stepAct s a).lost) = false := by
  cases a with
  | mv d pick coin => exact move_real_flags (dirPosns d) pick coin s
  | rs p1 c1 p2 c2 => rfl

theorem run_flags {acts : List Act} :
    ∀ {s : Board}, (s.won && s.lost) = false →
      ((run acts s).won && (run acts s).lost) = false := by
  induction acts with
  | nil => intro s h; exact h
  | cons a rest ih =>
    intro s _
    exact ih (stepAct_flags s a)

/-! ### The specification claims -/

/-- C1, counterexample: on a just-won board (`won` is true) a further real
move up still slides tiles, returns true, and changes the grid, refuting the
claim that every post-win move returns false and leaves the state unchanged. -/
theorem c1_counterexample :
    (Board.move UP false 0 false boardWon).2 = true ∧
      (Board.move UP false 0 false boardWon).1.cells ≠ boardWon.cells := by
  constructor
  · decide
  · have hpt : (Board.move UP false 0 false boardWon).1.cells ((0 : Fin N), (0 : Fin N))
        ≠ boardWon.cells ((0 : Fin N), (0 : Fin N)) := by decide
    exact fun hcells => hpt (congrFun hcells _)

/-- C1, amended: once `won` is true, a real move never spawns a tile (the
resulting cells are exactly the slide/merge result), sets `lost` to false, and
keeps `won` true; but the move may still slide or merge tiles and return
true. -/
theorem c1_amended_post_win {dir : List (List Pos)} {pick : Nat} {coin : Bool}
    {s : Board} (h : s.won = true) :
    (Board.move dir false pick coin s).1.won = true ∧
      (Board.move dir false pick coin s).1.lost = false ∧
      (Board.move dir false pick coin s).1.cells
        = (moveLines false dir s.cells false s.won).grid := by
  rw [move_real_after_won h]
  exact ⟨rfl, rfl, rfl⟩

theorem c1_amended_post_win_witness :
    boardWon.won = true ∧
      ((Board.move UP false 0 false boardWon).1.won = true ∧
        (Board.move UP false 0 false boardWon).1.lost = false ∧
        (Board.move UP false 0 false boardWon).1.cells
          = (moveLines false UP boardWon.cells false boardWon.won).grid) :=
  ⟨rfl, c1_amended_post_win rfl⟩

/-- C2: whenever a real move in any direction returns false, the grid after
the call equals the grid before it. -/
theorem c2_noop_move_keeps_grid (d : Dir) (pick : Nat) (coin : Bool) (s : Board)
    (h : (Board.move (dirPosns d) false pick coin s).2 = false) :
    (Board.move (dirPosns d) false pick coin s).1.cells = s.cells :=
  move_real_not_moved h

theorem c2_noop_move_keeps_grid_witness :
    (Board.move (dirPosns Dir.up) false 0 false ⟨gridStuck, false, false⟩).2 = false ∧
      (Board.move (dirPosns Dir.up) false 0 false ⟨gridStuck, false, false⟩).1.cells
        = gridStuck := by
  refine ⟨by decide, ?_⟩
  exact c2_noop_move_keeps_grid Dir.up 0 false ⟨gridStuck, false, false⟩ (by decide)

/-- C3: on a fully occupied board with no two equal adjacent values and
`won` false, every real move returns false and afterwards `lost` is true. -/
theorem c3_stuck_board_loses (d : Dir) (pick : Nat) (coin : Bool) (g : Grid) (l0 : Bool)
    (hfull : ∀ p, occupied g p = true) (hadj : noAdjEq g) :
    (Board.move (dirPosns d) false pick coin ⟨g, false, l0⟩).2 = false ∧
      (Board.move (dirPosns d) false pick coin ⟨g, false, l0⟩).1.lost = true := by
  have hst : ∀ (dd : Dir) (just m w : Bool),
      moveLines just (dirPosns dd) g m w = ⟨g, m, w⟩ :=
    fun dd just m w => moveLines_stuck hfull (dirPosns dd) m w (chain_of_noAdj hadj dd)
  have hcant : cant_move g false = true := by
    unfold cant_move
    have hU : moveLines true UP g false false = ⟨g, false, false⟩ := hst Dir.up true false false
    have hL : moveLines true LEFT g false false = ⟨g, false, false⟩ := hst Dir.left true false false
    have hD : moveLines true DOWN g false false = ⟨g, false, false⟩ := hst Dir.down true false false
    have hR : moveLines true RIGHT g false false = ⟨g, false, false⟩ := hst Dir.right true false false
    simp [DIRS, hU, hL, hD, hR]
  have hr : moveLines false (dirPosns d) (Board.mk g false l0).cells false
      (Board.mk g false l0).won = ⟨g, false, false⟩ := hst d false false false
  rw [move_real_eq, hr]
  simp [hcant]

theorem c3_stuck_board_loses_witness :
    (∀ p, occupied gridStuck p = true) ∧ noAdjEq gridStuck ∧
      ((Board.move (dirPosns Dir.left) false 0 false ⟨gridStuck, false, false⟩).2 = false ∧
        (Board.move (dirPosns Dir.left) false 0 false ⟨gridStuck, false, false⟩).1.lost
          = true) := by
  refine ⟨by decide, by decide, ?_⟩
  exact c3_stuck_board_loses Dir.left 0 false gridStuck false (by decide) (by decide)

/-- C4: a dry-run move never changes `won`; and during a real move, a merge of
two matching tiles whose doubled value equals GOAL (the merge branch at the
head of a line) leaves the `won` flag true at the end of the line. -/
theorem c4_goal_merge_sets_won :
    (∀ (dir : List (List Pos)) (pick : Nat) (coin : Bool) (s : Board),
      (Board.move dir true pick coin s).1.won = s.won) ∧
    (∀ (p q : Pos) (rest : List Pos) (g : Grid) (m w : Bool) (v : Nat),
      occupied g p = true → rest.find? (fun x => occupied g x) = some q → p ≠ q →
      g p = g q → g p = some v → v * 2 = GOAL →
      (moveLine false (p :: rest) g m w).won = true) := by
  constructor
  · intro dir pick coin s
    rw [move_dry_state]
  · intro p q rest g m w v hp hf hpq heq hv hgoal
    rw [moveLine_occ_some_eq hp hf heq]
    have hmg : mergeStep g p q p = some GOAL := by
      rw [mergeStep_fst hpq, hv]
      simp [hgoal]
    have hcond : (w || (!false && decide (mergeStep g p q p = some GOAL))) = true := by
      rw [hmg]
      simp
    rw [hcond]
    exact moveLine_won_of_won

theorem c4_goal_merge_sets_won_witness :
    (moveLine false [((0 : Fin N), (0 : Fin N)), ((0 : Fin N), (1 : Fin N)),
      ((0 : Fin N), (2 : Fin N)), ((0 : Fin N), (3 : Fin N))] gridHalfGoal false false).won
      = true :=
  c4_goal_merge_sets_won.2 ((0 : Fin N), (0 : Fin N)) ((0 : Fin N), (1 : Fin N))
    [((0 : Fin N), (1 : Fin N)), ((0 : Fin N), (2 : Fin N)), ((0 : Fin N), (3 : Fin N))]
    gridHalfGoal false false 1024 (by decide) (by decide) (by decide) (by decide)
    (by decide) (by decide)

/-- C5: the line 2, 2, 2, 2 moved toward its far edge becomes 4, 4, empty,
empty with a reported change, not 8, empty, empty, empty: each tile merges at
most once per move. -/
theorem c5_no_double_merge :
    (moveLines false LEFT gridTwos false false).grid = gridTwosMerged ∧
      (moveLines false LEFT gridTwos false false).moved = true := by
  constructor
  · decide
  · decide

/-- C6: a dry-run move leaves the whole board state (grid, `won`, `lost`)
unchanged, whatever direction is checked. -/
theorem c6_dry_run_pure (d : Dir) (pick : Nat) (coin : Bool) (s : Board) :
    (Board.move (dirPosns d) true pick coin s).1 = s :=
  move_dry_state (dirPosns d) pick coin s

/-- C7: after any finite sequence of real moves and resets starting from a
fresh board, every occupied cell holds a power of two that is at least 2. -/
theorem c7_tiles_powers_of_two (acts : List Act) (p1 : Nat) (c1 : Bool) (p2 : Nat)
    (c2 : Bool) (p : Pos) (v : Nat)
    (h : (run acts (Board.reset p1 c1 p2 c2)).cells p = some v) :
    (∃ k, v = 2 ^ k) ∧ 2 ≤ v := by
  have hinv : PInv (run acts (Board.reset p1 c1 p2 c2)).cells :=
    run_PInv (reset_PInv p1 c1 p2 c2)
  obtain ⟨k, hk⟩ := hinv p v h
  subst hk
  constructor
  · exact ⟨k + 1, rfl⟩
  · calc (2 : Nat) = 2 ^ 1 := rfl
      _ ≤ 2 ^ (k + 1) := Nat.pow_le_pow_right (by omega) (by omega)

theorem c7_tiles_powers_of_two_witness :
    (run [] (Board.reset 0 false 0 false)).cells ((0 : Fin N), (0 : Fin N)) = some 2 ∧
      ((∃ k, 2 = 2 ^ k) ∧ 2 ≤ 2) := by
  refine ⟨by decide, ?_⟩
  exact c7_tiles_powers_of_two [] 0 false 0 false ((0 : Fin N), (0 : Fin N)) 2 (by decide)

/-- C8: in every state reachable by moves and resets from a fresh board,
`won` and `lost` are never both true. -/
theorem c8_not_both_won_and_lost (acts : List Act) (p1 : Nat) (c1 : Bool) (p2 : Nat)
    (c2 : Bool) :
    ((run acts (Board.reset p1 c1 p2 c2)).won
      && (run acts (Board.reset p1 c1 p2 c2)).lost) = false :=
  run_flags rfl

/-- C9: the number of occupied cells never exceeds 16; a real move increases
it by at most one; a dry-run move never increases it. -/
theorem c9_count_bounds :
    (∀ g : Grid, countOcc g ≤ 16) ∧
    (∀ (d : Dir) (pick : Nat) (coin : Bool) (s : Board),
      countOcc (Board.move (dirPosns d) false pick coin s).1.cells
        ≤ countOcc s.cells + 1) ∧
    (∀ (d : Dir) (pick : Nat) (coin : Bool) (s : Board),
      countOcc (Board.move (dirPosns d) true pick coin s).1.cells ≤ countOcc s.cells) := by
  refine ⟨countOcc_le_card, ?_, ?_⟩
  · intro d pick coin s
    exact move_real_countOcc_le (dirPosns d) pick coin s
  · intro d pick coin s
    rw [move_dry_state]

/-- C10: when a real move reports a change and the game is not over after it,
exactly one tile is spawned on top of the slide/merge result: a changed move
always leaves an empty cell, so the empty-cell guard of the spawn step never
skips in this situation. -/
theorem c10_spawn_exactly_one (d : Dir) (pick : Nat) (coin : Bool) (s : Board)
    (hm : (Board.move (dirPosns d) false pick coin s).2 = true)
    (hgo : ((Board.move (dirPosns d) false pick coin s).1.won
      || (Board.move (dirPosns d) false pick coin s).1.lost) = false) :
    countOcc (Board.move (dirPosns d) false pick coin s).1.cells
      = countOcc (moveLines false (dirPosns d) s.cells false s.won).grid + 1 :=
  move_real_spawn hm hgo

theorem c10_spawn_exactly_one_witness :
    (Board.move (dirPosns Dir.up) false 0 false ⟨gridOne, false, false⟩).2 = true ∧
      ((Board.move (dirPosns Dir.up) false 0 false ⟨gridOne, false, false⟩).1.won
        || (Board.move (dirPosns Dir.up) false 0 false ⟨gridOne, false, false⟩).1.lost)
        = false ∧
      countOcc (Board.move (dirPosns Dir.up) false 0 false ⟨gridOne, false, false⟩).1.cells
        = countOcc (moveLines false (dirPosns Dir.up) gridOne false false).grid + 1 := by
  refine ⟨by decide, by decide, ?_⟩
  exact c10_spawn_exactly_one Dir.up 0 false ⟨gridOne, false, false⟩ (by decide) (by decide)

end My2048
